import Mathlib

/-!
Verification of the vimrace core: input parser, motion engine, buffer edit
primitives, undo/redo history and the action dispatcher.

Conventions of the embedding:
* Go `int` is modelled as `Int` (counts are capped at 99 and positions are
  bounded by buffer sizes, so 64-bit overflow is unreachable).
* A text line (`string` in Go, indexed byte-wise) is `List Char`; the buffers
  in this program are ASCII, where byte indexing, rune indexing and list
  indexing coincide.
* A Go index expression `xs[i]` without a preceding bounds check is modelled
  by the checked access `getL?`/`getC?`: the value `none` of an
  `Option`-valued function models a Go runtime panic (index out of range).
  Code whose accesses are all guarded in the source is modelled by total
  functions.
* Go slices used as stacks (`append` at the end, pop from the end) are
  modelled as lists whose head is the top of the stack.
-/

namespace Vimrace

/-- The `Position` from level.go: a cursor position (zero-indexed row and column). -/
structure Position where
  Row : Int
  Col : Int
deriving DecidableEq, Repr

/-- A text line: Go `string`, byte-indexed (ASCII). -/
abbrev Line := List Char

/-- Checked line access: `lines[i]` in Go; `none` models an index-out-of-range panic. -/
def getL? (lines : List Line) (i : Int) : Option Line :=
  if h : 0 ≤ i ∧ i < (lines.length : Int) then
    some (lines.get ⟨i.toNat, by omega⟩)
  else none

/-- Checked character access: `line[i]` in Go; `none` models an index-out-of-range panic. -/
def getC? (line : Line) (i : Int) : Option Char :=
  if h : 0 ≤ i ∧ i < (line.length : Int) then
    some (line.get ⟨i.toNat, by omega⟩)
  else none

/-! ## Buffer edit primitives (part_001 of the source, `Buffer` methods).

Each primitive takes the buffer lines plus the cursor arguments and returns
the new lines together with the returned cursor position.  In every
primitive except `DeleteCharBefore`, each index and slice expression of the
Go source is dominated by an explicit bounds check, so those are modelled as
total functions.  `DeleteCharBefore` evaluates `line[:col-1]` after clamping
`col` to the line length; on an empty line with `col > 0` the clamped `col`
is 0 and the slice bound is -1, a Go runtime panic, so it is
`Option`-valued with `none` modelling the panic. -/

/-- The `Buffer.DeleteChar` — the `x` command. -/
def DeleteChar (lines : List Line) (row col : Int) : List Line × Position :=
  if row < 0 ∨ row ≥ (lines.length : Int) then (lines, ⟨row, col⟩)
  else
    let line := lines.getD row.toNat []
    if line.length = 0 ∨ col < 0 ∨ col ≥ (line.length : Int) then (lines, ⟨row, col⟩)
    else
      let newLine := line.take col.toNat ++ line.drop (col.toNat + 1)
      let newLines := lines.set row.toNat newLine
      let maxCol : Int := (newLine.length : Int) - 1
      let maxCol := if maxCol < 0 then 0 else maxCol
      let col := if col > maxCol then maxCol else col
      (newLines, ⟨row, col⟩)

/-- The `Buffer.ReplaceChar` — the `r` command. -/
def ReplaceChar (lines : List Line) (row col : Int) (ch : Char) : List Line × Position :=
  if row < 0 ∨ row ≥ (lines.length : Int) then (lines, ⟨row, col⟩)
  else
    let line := lines.getD row.toNat []
    if col < 0 ∨ col ≥ (line.length : Int) then (lines, ⟨row, col⟩)
    else
      let newLine := line.take col.toNat ++ [ch] ++ line.drop (col.toNat + 1)
      (lines.set row.toNat newLine, ⟨row, col⟩)

/-- The `Buffer.InsertChar` — typing in insert mode. -/
def InsertChar (lines : List Line) (row col : Int) (ch : Char) : List Line × Position :=
  if row < 0 ∨ row ≥ (lines.length : Int) then (lines, ⟨row, col⟩)
  else
    let line := lines.getD row.toNat []
    let col := if col < 0 then 0 else col
    let col := if col > (line.length : Int) then (line.length : Int) else col
    let newLine := line.take col.toNat ++ [ch] ++ line.drop col.toNat
    (lines.set row.toNat newLine, ⟨row, col + 1⟩)

/-- The `Buffer.DeleteCharBefore` — backspace in insert mode.  The slice
`line[:col-1]` of the Go source has a negative bound exactly when the
clamped column is 0, i.e. when `col > 0` on an empty line; `none` models
that slice-bounds panic. -/
def DeleteCharBefore (lines : List Line) (row col : Int) : Option (List Line × Position) :=
  if row < 0 ∨ row ≥ (lines.length : Int) then some (lines, ⟨row, col⟩)
  else if col > 0 then
    let line := lines.getD row.toNat []
    let col := if col > (line.length : Int) then (line.length : Int) else col
    if col - 1 < 0 then none
    else
      let newLine := line.take (col - 1).toNat ++ line.drop col.toNat
      some (lines.set row.toNat newLine, ⟨row, col - 1⟩)
  else if row = 0 then some (lines, ⟨0, 0⟩)
  else
    let prev := lines.getD (row.toNat - 1) []
    let cur := lines.getD row.toNat []
    let prevLen : Int := (prev.length : Int)
    let l1 := lines.set (row.toNat - 1) (prev ++ cur)
    some (l1.take row.toNat ++ l1.drop (row.toNat + 1), ⟨row - 1, prevLen⟩)

/-- The `Buffer.SplitLine` — Enter in insert mode. -/
def SplitLine (lines : List Line) (row col : Int) : List Line × Position :=
  if row < 0 ∨ row ≥ (lines.length : Int) then (lines, ⟨row, col⟩)
  else
    let line := lines.getD row.toNat []
    let col := if col < 0 then 0 else col
    let col := if col > (line.length : Int) then (line.length : Int) else col
    let before := line.take col.toNat
    let after := line.drop col.toNat
    let l1 := lines.set row.toNat before
    (l1.take (row.toNat + 1) ++ [after] ++ l1.drop (row.toNat + 1), ⟨row + 1, 0⟩)

/-- The `Buffer.InsertLine` — the `o` command: insert an empty line after `afterRow`. -/
def InsertLine (lines : List Line) (afterRow : Int) : List Line × Position :=
  let r := if afterRow < 0 then 0 else afterRow
  let r := if r ≥ (lines.length : Int) then (lines.length : Int) - 1 else r
  (lines.take (r + 1).toNat ++ [([] : Line)] ++ lines.drop (r + 1).toNat, ⟨r + 1, 0⟩)

/-- The `Buffer.InsertLineAbove` — the `O` command: insert an empty line before `beforeRow`. -/
def InsertLineAbove (lines : List Line) (beforeRow : Int) : List Line × Position :=
  let r := if beforeRow < 0 then 0 else beforeRow
  let r := if r > (lines.length : Int) then (lines.length : Int) else r
  (lines.take r.toNat ++ [([] : Line)] ++ lines.drop r.toNat, ⟨r, 0⟩)

/-! ## Undo/redo history (part_001 of the source, `UndoStack`). -/

/-- The `UndoEntry`: a snapshot of the buffer lines and cursor position. -/
structure UndoEntry where
  Lines : List Line
  CursorPos : Position
deriving DecidableEq, Repr

/-- The `UndoStack`: undo (`Past`) and redo (`Future`) stacks; list head = top of stack. -/
structure UndoStack where
  Past : List UndoEntry
  Future : List UndoEntry
deriving DecidableEq, Repr

/-- The `UndoStack.Save`: push a (deep-copied) snapshot onto `Past`, clear `Future`. -/
def UndoStack.Save (u : UndoStack) (lines : List Line) (pos : Position) : UndoStack :=
  { Past := ⟨lines, pos⟩ :: u.Past, Future := [] }

/-- The `UndoStack.Undo`: pop the most recent entry from `Past`
(`none` models Go's `ok = false` when the stack is empty). -/
def UndoStack.Undo (u : UndoStack) : Option UndoEntry × UndoStack :=
  match u.Past with
  | [] => (none, u)
  | e :: rest => (some e, { u with Past := rest })

/-- The `UndoStack.Redo`: pop the most recent entry from `Future`. -/
def UndoStack.Redo (u : UndoStack) : Option UndoEntry × UndoStack :=
  match u.Future with
  | [] => (none, u)
  | e :: rest => (some e, { u with Future := rest })

/-- The `UndoStack.PushFuture`: push onto the redo stack (used during undo). -/
def UndoStack.PushFuture (u : UndoStack) (lines : List Line) (pos : Position) : UndoStack :=
  { u with Future := ⟨lines, pos⟩ :: u.Future }

/-- The `UndoStack.PushPast`: push onto the undo stack without clearing the redo stack. -/
def UndoStack.PushPast (u : UndoStack) (lines : List Line) (pos : Position) : UndoStack :=
  { u with Past := ⟨lines, pos⟩ :: u.Past }

/-- The `UndoStack.Reset`: clear both stacks. -/
def UndoStack.Reset (_u : UndoStack) : UndoStack :=
  { Past := [], Future := [] }

/-! ## Input parser (mode.go, input.go). -/

/-- The `VimMode` (mode.go). -/
inductive VimMode where
  | ModeNormal
  | ModeInsert
deriving DecidableEq, Repr

/-- The `Action` (mode.go). -/
inductive Action where
  | ActionNone
  | ActionMotion
  | ActionDeleteChar
  | ActionReplaceChar
  | ActionInsertBefore
  | ActionInsertAfter
  | ActionAppendEOL
  | ActionOpenBelow
  | ActionOpenAbove
  | ActionUndo
  | ActionRedo
  | ActionExitInsert
  | ActionInsertChar
  | ActionInsertNewline
  | ActionInsertBackspace
deriving DecidableEq, Repr

/-- The `Motion` (input.go). -/
inductive Motion where
  | MotionNone
  | MotionH
  | MotionJ
  | MotionK
  | MotionL
  | MotionW
  | MotionB
  | MotionE
  | MotionZero
  | MotionDollar
  | MotionCaret
  | MotionGG
  | MotionBigG
  | MotionFChar
  | MotionBigFChar
deriving DecidableEq, Repr

/-- The `InputState` (input.go): pending multi-key sequence state. -/
inductive InputState where
  | InputReady
  | InputPendingG
  | InputPendingF
  | InputPendingBigF
  | InputPendingR
deriving DecidableEq, Repr

/-- The `InputParser` (input.go). Go zero values are the field defaults. -/
structure InputParser where
  Mode : VimMode := .ModeNormal
  State : InputState := .InputReady
  FChar : Char := .ofNat 0
  Count : Int := 0
deriving DecidableEq, Repr

/-- The `ParseResult` (input.go). Go zero values are the field defaults, so a bare
`ParseResult{...}` literal of the source is a structure instance keeping the
remaining defaults. -/
structure ParseResult where
  Motion : Motion := .MotionNone
  Action : Action := .ActionNone
  Char : Char := .ofNat 0
  Consumed : Bool := false
  Count : Int := 0
  EnterMode : VimMode := .ModeNormal
deriving DecidableEq, Repr

/-- The `unicode.IsPrint` applied to a single key byte.  The key alphabet of this
program is ASCII (single printable characters plus the named keys), where
`IsPrint` holds exactly on the range 0x20 – 0x7E. -/
def goIsPrint (c : Char) : Bool :=
  0x20 ≤ c.toNat ∧ c.toNat ≤ 0x7E

/-- The `feedInsert` (input.go): input handling in insert mode. -/
def feedInsert (p : InputParser) (key : String) : InputParser × ParseResult :=
  if key = "esc" then
    ({ p with Mode := .ModeNormal }, { Action := .ActionExitInsert, Consumed := true })
  else if key = "enter" then
    (p, { Action := .ActionInsertNewline, Consumed := true })
  else if key = "backspace" then
    (p, { Action := .ActionInsertBackspace, Consumed := true })
  else
    match key.data with
    | [ch] =>
      if goIsPrint ch then
        (p, { Action := .ActionInsertChar, Char := ch, Consumed := true })
      else (p, { Consumed := true })
    | _ => (p, { Consumed := true })

/-- The single-character part of `feedNormal` (input.go), entered after the
`ctrl+r` check and the `len(key) != 1` guard. -/
def feedNormalChar (p : InputParser) (ch : Char) : InputParser × ParseResult :=
  match p.State with
  | .InputPendingG =>
    let count := p.Count
    let p1 := { p with State := .InputReady, Count := 0 }
    if ch = 'g' then
      (p1, { Action := .ActionMotion, Motion := .MotionGG, Consumed := true, Count := count })
    else (p1, { Consumed := true })
  | .InputPendingF =>
    let count := p.Count
    ({ p with State := .InputReady, FChar := ch, Count := 0 },
     { Action := .ActionMotion, Motion := .MotionFChar, Char := ch, Consumed := true,
       Count := count })
  | .InputPendingBigF =>
    let count := p.Count
    ({ p with State := .InputReady, FChar := ch, Count := 0 },
     { Action := .ActionMotion, Motion := .MotionBigFChar, Char := ch, Consumed := true,
       Count := count })
  | _ =>
    if '1' ≤ ch ∧ ch ≤ '9' ∧ p.Count = 0 then
      ({ p with Count := (ch.toNat : Int) - ('0'.toNat : Int) }, { Consumed := true })
    else if '0' ≤ ch ∧ ch ≤ '9' ∧ p.Count > 0 then
      let c := p.Count * 10 + ((ch.toNat : Int) - ('0'.toNat : Int))
      ({ p with Count := if c > 99 then 99 else c }, { Consumed := true })
    else
      let count := p.Count
      let p1 := { p with Count := 0 }
      match ch with
      | 'h' => (p1, { Action := .ActionMotion, Motion := .MotionH, Consumed := true, Count := count })
      | 'j' => (p1, { Action := .ActionMotion, Motion := .MotionJ, Consumed := true, Count := count })
      | 'k' => (p1, { Action := .ActionMotion, Motion := .MotionK, Consumed := true, Count := count })
      | 'l' => (p1, { Action := .ActionMotion, Motion := .MotionL, Consumed := true, Count := count })
      | 'w' => (p1, { Action := .ActionMotion, Motion := .MotionW, Consumed := true, Count := count })
      | 'b' => (p1, { Action := .ActionMotion, Motion := .MotionB, Consumed := true, Count := count })
      | 'e' => (p1, { Action := .ActionMotion, Motion := .MotionE, Consumed := true, Count := count })
      | '0' => (p1, { Action := .ActionMotion, Motion := .MotionZero, Consumed := true, Count := count })
      | '$' => (p1, { Action := .ActionMotion, Motion := .MotionDollar, Consumed := true, Count := count })
      | '^' => (p1, { Action := .ActionMotion, Motion := .MotionCaret, Consumed := true, Count := count })
      | 'G' => (p1, { Action := .ActionMotion, Motion := .MotionBigG, Consumed := true, Count := count })
      | 'g' => ({ p1 with State := .InputPendingG }, { Consumed := true })
      | 'f' => ({ p1 with State := .InputPendingF }, { Consumed := true })
      | 'F' => ({ p1 with State := .InputPendingBigF }, { Consumed := true })
      | 'x' => (p1, { Action := .ActionDeleteChar, Consumed := true, Count := count })
      | 'r' => ({ p1 with State := .InputPendingR }, { Consumed := true })
      | 'i' => ({ p1 with Mode := .ModeInsert },
                { Action := .ActionInsertBefore, Consumed := true, EnterMode := .ModeInsert })
      | 'a' => ({ p1 with Mode := .ModeInsert },
                { Action := .ActionInsertAfter, Consumed := true, EnterMode := .ModeInsert })
      | 'A' => ({ p1 with Mode := .ModeInsert },
                { Action := .ActionAppendEOL, Consumed := true, EnterMode := .ModeInsert })
      | 'o' => ({ p1 with Mode := .ModeInsert },
                { Action := .ActionOpenBelow, Consumed := true, EnterMode := .ModeInsert })
      | 'O' => ({ p1 with Mode := .ModeInsert },
                { Action := .ActionOpenAbove, Consumed := true, EnterMode := .ModeInsert })
      | 'u' => (p1, { Action := .ActionUndo, Consumed := true })
      | _ => (p1, {})

/-- The `feedNormal` (input.go): input handling in normal mode.  The pending-`r`
state is handled first (it also accepts non-single-character keys), then the
`ctrl+r` key, then the `len(key) != 1` guard, then the single-character
logic. -/
def feedNormal (p : InputParser) (key : String) : InputParser × ParseResult :=
  if p.State = .InputPendingR then
    let p1 := { p with State := .InputReady }
    match key.data with
    | [ch] =>
      if goIsPrint ch then
        ({ p1 with Count := 0 },
         { Action := .ActionReplaceChar, Char := ch, Consumed := true, Count := p1.Count })
      else ({ p1 with Count := 0 }, { Consumed := true })
    | _ => ({ p1 with Count := 0 }, { Consumed := true })
  else if key = "ctrl+r" then
    ({ p with State := .InputReady, Count := 0 }, { Action := .ActionRedo, Consumed := true })
  else
    match key.data with
    | [ch] => feedNormalChar p ch
    | _ => ({ p with State := .InputReady, Count := 0 }, {})

/-- The `InputParser.Feed` (input.go): process a single keypress. -/
def InputParser.Feed (p : InputParser) (key : String) : InputParser × ParseResult :=
  if p.Mode = .ModeInsert then feedInsert p key else feedNormal p key

/-- The `InputParser.Reset` (input.go): clear any pending input state. -/
def InputParser.Reset (_p : InputParser) : InputParser :=
  { Mode := .ModeNormal, State := .InputReady, FChar := .ofNat 0, Count := 0 }

/-- A freshly reset parser (ready, normal mode, no count). -/
def resetParser : InputParser :=
  InputParser.Reset {}

/-- Feed a list of keys in order, keeping only the final parser state. -/
def feedAll (p : InputParser) : List String → InputParser
  | [] => p
  | k :: ks => feedAll (p.Feed k).1 ks

/-! ## Motion engine (level.go).

The Go functions below index lines and characters without a dominating
bounds check in several places, so they are `Option`-valued here: `none`
models an index-out-of-range panic.  Each Go loop over a column index
becomes a recursive helper whose guard mirrors the loop condition,
including the position of the (possibly panicking) index access. -/

/-- The `isWordChar` (level.go): letter, digit or underscore.  The buffers are
ASCII, where `unicode.IsLetter`/`IsDigit` on a byte coincide with the ASCII
classification. -/
def isWordChar (c : Char) : Bool :=
  c.isAlpha || c.isDigit || c = '_'

/-- The `unicode.IsSpace` on a byte of an ASCII buffer. -/
def goIsSpace (c : Char) : Bool :=
  c = ' ' || c = '\t' || c = '\n' || c = .ofNat 0x0B || c = .ofNat 0x0C || c = '\r'

/-- The `clamp` closure of `ApplyMotion` (level.go): clamp the row into the
buffer, then the column into the row's line.  Only called with a non-empty
buffer, where its `lines[p.Row]` access is in range. -/
def clampPos (lines : List Line) (p : Position) : Option Position :=
  let row := if p.Row < 0 then 0 else p.Row
  let row := if row ≥ (lines.length : Int) then (lines.length : Int) - 1 else row
  match getL? lines row with
  | none => none
  | some line =>
    let maxCol : Int := (line.length : Int) - 1
    let maxCol := if maxCol < 0 then 0 else maxCol
    let col := if p.Col < 0 then 0 else p.Col
    let col := if col > maxCol then maxCol else col
    some ⟨row, col⟩

/-- A Go loop `for col < len(line) && p(line[col]) { col++ }`.  The guard
checks `col < len(line)` first; the access `line[col]` then panics exactly
when `col < 0`. -/
def skipFwdWhile (p : Char → Bool) (s : Line) (col : Int) : Option Int :=
  if h1 : col < (s.length : Int) then
    if h2 : 0 ≤ col then
      if p (s.get ⟨col.toNat, by omega⟩) then skipFwdWhile p s (col + 1)
      else some col
    else none
  else some col
termination_by ((s.length : Int) - col).toNat
decreasing_by omega

/-- A Go loop `for col > 0 && p(line[col]) { col-- }` (used by `moveWordBack`
to skip trailing spaces).  The access `line[col]` panics when `col ≥ len(line)`. -/
def skipBackAt (p : Char → Bool) (s : Line) (col : Int) : Option Int :=
  if h1 : 0 < col then
    match getC? s col with
    | none => none
    | some c => if p c then skipBackAt p s (col - 1) else some col
  else some col
termination_by col.toNat
decreasing_by omega

/-- A Go loop `for col > 0 && p(line[col-1]) { col-- }` (used by
`moveWordBack` to walk to the start of a run). -/
def skipBackPrev (p : Char → Bool) (s : Line) (col : Int) : Option Int :=
  if h1 : 0 < col then
    match getC? s (col - 1) with
    | none => none
    | some c => if p c then skipBackPrev p s (col - 1) else some col
  else some col
termination_by col.toNat
decreasing_by omega

/-- A Go loop `for col+1 < len(line) && p(line[col+1]) { col++ }` (used by
`moveWordEnd` to extend to the end of a run). -/
def runFwdNext (p : Char → Bool) (s : Line) (col : Int) : Option Int :=
  if h1 : col + 1 < (s.length : Int) then
    match getC? s (col + 1) with
    | none => none
    | some c => if p c then runFwdNext p s (col + 1) else some col
  else some col
termination_by ((s.length : Int) - col).toNat
decreasing_by omega

/-- Common tail of `moveWord` (level.go): skip whitespace, else wrap to the
next line's first non-space column, else land on the last character of the
current line. -/
def moveWordTail (lines : List Line) (row : Int) (line : Line) (col : Int) : Option Position := do
  let col ← skipFwdWhile (fun c => c = ' ') line col
  if col < (line.length : Int) then
    return ⟨row, col⟩
  else if row + 1 < (lines.length : Int) then do
    let line2 ← getL? lines (row + 1)
    let col2 ← skipFwdWhile (fun c => c = ' ') line2 0
    return ⟨row + 1, col2⟩
  else if line.length > 0 then
    return ⟨row, (line.length : Int) - 1⟩
  else
    return ⟨row, 0⟩

/-- The `moveWord` (level.go): the `w` motion. -/
def moveWord (lines : List Line) (pos : Position) : Option Position := do
  let line ← getL? lines pos.Row
  if pos.Col ≥ (line.length : Int) then
    if pos.Row + 1 < (lines.length : Int) then do
      let line2 ← getL? lines (pos.Row + 1)
      let col ← skipFwdWhile (fun c => c = ' ') line2 0
      if col < (line2.length : Int) then return ⟨pos.Row + 1, col⟩
      else return pos
    else return pos
  else do
    let c0 ← getC? line pos.Col
    if c0 = ' ' then do
      let col ← skipFwdWhile (fun c => c = ' ') line pos.Col
      if col < (line.length : Int) then return ⟨pos.Row, col⟩
      else moveWordTail lines pos.Row line col
    else if isWordChar c0 then do
      let col ← skipFwdWhile isWordChar line pos.Col
      moveWordTail lines pos.Row line col
    else do
      let col ← skipFwdWhile (fun c => !isWordChar c && c ≠ ' ') line pos.Col
      moveWordTail lines pos.Row line col

/-- The part of `moveWordBack` (level.go) after the initial column
adjustment: skip spaces backward, then walk to the start of the run. -/
def moveWordBackFrom (lines : List Line) (row : Int) (col : Int) : Option Position := do
  let line ← getL? lines row
  let col ← skipBackAt (fun c => c = ' ') line col
  if col = 0 then
    return ⟨row, 0⟩
  else do
    let c ← getC? line col
    if isWordChar c then do
      let col2 ← skipBackPrev isWordChar line col
      return ⟨row, col2⟩
    else if c ≠ ' ' then do
      let col2 ← skipBackPrev (fun c => !isWordChar c && c ≠ ' ') line col
      return ⟨row, col2⟩
    else
      return ⟨row, col⟩

/-- The `moveWordBack` (level.go): the `b` motion. -/
def moveWordBack (lines : List Line) (pos : Position) : Option Position :=
  if pos.Col = 0 then
    if pos.Row > 0 then do
      let line ← getL? lines (pos.Row - 1)
      if line.length > 0 then
        moveWordBackFrom lines (pos.Row - 1) ((line.length : Int) - 1)
      else
        return ⟨pos.Row - 1, 0⟩
    else some ⟨0, 0⟩
  else
    moveWordBackFrom lines pos.Row (pos.Col - 1)

/-- Final section of `moveWordEnd` (level.go): extend to the end of the
word-character or punctuation run under the cursor. -/
def moveWordEndFinal (row : Int) (line : Line) (col : Int) : Option Position := do
  if col < (line.length : Int) then do
    let c ← getC? line col
    if isWordChar c then do
      let col2 ← runFwdNext isWordChar line col
      return ⟨row, col2⟩
    else do
      let col2 ← runFwdNext (fun c => !isWordChar c && c ≠ ' ') line col
      return ⟨row, col2⟩
  else
    return ⟨row, col⟩

/-- The `moveWordEnd` from its whitespace-skipping section onward (level.go). -/
def moveWordEndAfterSkip (lines : List Line) (row : Int) (line : Line) (col : Int) :
    Option Position := do
  let col ← skipFwdWhile (fun c => c = ' ') line col
  if col ≥ (line.length : Int) then
    if row + 1 < (lines.length : Int) then do
      let line2 ← getL? lines (row + 1)
      let col2 ← skipFwdWhile (fun c => c = ' ') line2 0
      moveWordEndFinal (row + 1) line2 col2
    else
      return ⟨row, max 0 ((line.length : Int) - 1)⟩
  else
    moveWordEndFinal row line col

/-- The `moveWordEnd` (level.go): the `e` motion. -/
def moveWordEnd (lines : List Line) (pos : Position) : Option Position := do
  let line ← getL? lines pos.Row
  let col := pos.Col + 1
  if col ≥ (line.length : Int) then
    if pos.Row + 1 < (lines.length : Int) then do
      let line2 ← getL? lines (pos.Row + 1)
      moveWordEndAfterSkip lines (pos.Row + 1) line2 0
    else
      return ⟨pos.Row, max 0 ((line.length : Int) - 1)⟩
  else
    moveWordEndAfterSkip lines pos.Row line col

/-- The scan loop of `findCharForward` (level.go):
`for i := col+1; i < len(line); i++`. -/
def findFwdLoop (s : Line) (q : Position) (t : Char) (i : Int) : Option Position :=
  if h1 : i < (s.length : Int) then
    match getC? s i with
    | none => none
    | some c => if c = t then some ⟨q.Row, i⟩ else findFwdLoop s q t (i + 1)
  else some q
termination_by ((s.length : Int) - i).toNat
decreasing_by omega

/-- The `findCharForward` (level.go): the `f` motion, current line only. -/
def findCharForward (lines : List Line) (pos : Position) (ch : Char) : Option Position := do
  let line ← getL? lines pos.Row
  findFwdLoop line pos ch (pos.Col + 1)

/-- The scan loop of `findCharBackward` (level.go):
`for i := col-1; i >= 0; i--`. -/
def findBackLoop (s : Line) (q : Position) (t : Char) (i : Int) : Option Position :=
  if h1 : 0 ≤ i then
    match getC? s i with
    | none => none
    | some c => if c = t then some ⟨q.Row, i⟩ else findBackLoop s q t (i - 1)
  else some q
termination_by (i + 1).toNat
decreasing_by omega

/-- The `findCharBackward` (level.go): the `F` motion, current line only. -/
def findCharBackward (lines : List Line) (pos : Position) (ch : Char) : Option Position := do
  let line ← getL? lines pos.Row
  findBackLoop line pos ch (pos.Col - 1)

/-- The first-non-whitespace scan of the `^` motion (level.go):
`for i, ch := range line { if !unicode.IsSpace(ch) { pos.Col = i; break } }`
starting from `pos.Col = 0`. -/
def caretCol (line : Line) : Int :=
  match line.findIdx? (fun c => !goIsSpace c) with
  | some i => (i : Int)
  | none => 0

/-- The `ApplyMotion` (level.go): compute the new cursor position for a motion.
`none` models an index-out-of-range panic of the Go code (possible for the
motions that index `lines[pos.Row]` or a column without a preceding check,
when the position is outside the buffer). -/
def ApplyMotion (lines : List Line) (pos : Position) (motion : Motion) (char : Char) :
    Option Position :=
  if lines.length = 0 then some pos
  else
    match motion with
    | .MotionH => clampPos lines ⟨pos.Row, pos.Col - 1⟩
    | .MotionL => clampPos lines ⟨pos.Row, pos.Col + 1⟩
    | .MotionJ => clampPos lines ⟨pos.Row + 1, pos.Col⟩
    | .MotionK => clampPos lines ⟨pos.Row - 1, pos.Col⟩
    | .MotionZero => clampPos lines ⟨pos.Row, 0⟩
    | .MotionDollar =>
      match getL? lines pos.Row with
      | none => none
      | some line =>
        if line.length > 0 then some ⟨pos.Row, (line.length : Int) - 1⟩
        else some ⟨pos.Row, 0⟩
    | .MotionCaret =>
      match getL? lines pos.Row with
      | none => none
      | some line => some ⟨pos.Row, caretCol line⟩
    | .MotionGG => clampPos lines ⟨0, 0⟩
    | .MotionBigG => clampPos lines ⟨(lines.length : Int) - 1, 0⟩
    | .MotionW => moveWord lines pos
    | .MotionB => moveWordBack lines pos
    | .MotionE => moveWordEnd lines pos
    | .MotionFChar => findCharForward lines pos char
    | .MotionBigFChar => findCharBackward lines pos char
    | .MotionNone => clampPos lines pos

/-! ## Action dispatcher (model.go).

`ModelState` keeps the fields of the Bubble Tea `Model` that the dispatcher
handlers below read or write (buffer lines, cursor, vim mode, undo history,
curswant desired column, parser).  Rendering, scoring and level-progression
fields are outside the core. -/

/-- The dispatcher-relevant state of `Model` (model.go). -/
structure ModelState where
  Lines : List Line
  Cursor : Position
  VimMode : VimMode
  Undo : UndoStack
  DesiredCol : Int
  Parser : InputParser
deriving DecidableEq, Repr

/-- The `for i := 0; i < count; i++ { m.Cursor = ApplyMotion(...) }` loop of
`handleMotion` (model.go): apply the motion `n` times, propagating a panic. -/
def applyMotionN (lines : List Line) (motion : Motion) (char : Char) :
    Nat → Position → Option Position
  | 0, cur => some cur
  | n + 1, cur =>
    match ApplyMotion lines cur motion char with
    | none => none
    | some c => applyMotionN lines motion char n c

/-- The cursor computation of `handleMotion` (model.go) before the curswant
adjustment: for `gg`/`G` with an explicit count, jump to line `count-1`
clamped into the buffer; otherwise apply the motion `count` times
(`count = 1` when no count was given). -/
def motionStep (lines : List Line) (r : ParseResult) (cursor : Position) : Option Position :=
  let count := if r.Count = 0 then 1 else r.Count
  if r.Count > 0 ∧ (r.Motion = .MotionGG ∨ r.Motion = .MotionBigG) then
    let lineIdx := r.Count - 1
    let lineIdx := if lineIdx ≥ (lines.length : Int) then (lines.length : Int) - 1 else lineIdx
    let lineIdx := if lineIdx < 0 then 0 else lineIdx
    some ⟨lineIdx, 0⟩
  else
    applyMotionN lines r.Motion r.Char count.toNat cursor

/-- The `handleMotion` (model.go), restricted to the cursor and `DesiredCol`
(curswant) updates; target checking and scoring are outside the core.
Returns the new cursor and the new desired column. -/
def handleMotion (lines : List Line) (cursor : Position) (desiredCol : Int)
    (r : ParseResult) : Option (Position × Int) :=
  match motionStep lines r cursor with
  | none => none
  | some cur =>
    if r.Motion = .MotionJ ∨ r.Motion = .MotionK then
      match getL? lines cur.Row with
      | none => none
      | some line =>
        let maxCol : Int := (line.length : Int) - 1
        let maxCol := if maxCol < 0 then 0 else maxCol
        let col := if desiredCol > maxCol then maxCol else desiredCol
        some (⟨cur.Row, col⟩, desiredCol)
    else if r.Motion = .MotionDollar then some (cur, 2 ^ 31 - 1)
    else some (cur, cur.Col)

/-- The `handleEnterInsert` (model.go): dispatch of the insert-entry actions
`i`/`a`/`A`/`o`/`O`; saves an undo snapshot first, then enters insert mode.
`none` models the panic of the unchecked `m.Buffer.Lines[m.Cursor.Row]`
access in the `a`/`A` branches. -/
def handleEnterInsert (m : ModelState) (r : ParseResult) : Option ModelState :=
  let m1 := { m with Undo := UndoStack.Save m.Undo m.Lines m.Cursor }
  let enter := fun (mm : ModelState) =>
    { mm with VimMode := .ModeInsert, Parser := { mm.Parser with Mode := .ModeInsert } }
  match r.Action with
  | .ActionInsertAfter =>
    match getL? m1.Lines m1.Cursor.Row with
    | none => none
    | some line =>
      let m2 :=
        if m1.Cursor.Col < (line.length : Int) then
          { m1 with Cursor := ⟨m1.Cursor.Row, m1.Cursor.Col + 1⟩ }
        else m1
      some (enter m2)
  | .ActionAppendEOL =>
    match getL? m1.Lines m1.Cursor.Row with
    | none => none
    | some line =>
      some (enter { m1 with Cursor := ⟨m1.Cursor.Row, (line.length : Int)⟩ })
  | .ActionOpenBelow =>
    let res := InsertLine m1.Lines m1.Cursor.Row
    some (enter { m1 with Lines := res.1, Cursor := res.2 })
  | .ActionOpenAbove =>
    let res := InsertLineAbove m1.Lines m1.Cursor.Row
    some (enter { m1 with Lines := res.1, Cursor := res.2 })
  | _ => some (enter m1)

/-- The `ActionExitInsert` branch of `handlePlayingInput` (model.go): back to
normal mode, cursor one column left unless already at column 0; the buffer
is not touched. -/
def handleExitInsert (m : ModelState) : ModelState :=
  let m1 := { m with VimMode := .ModeNormal }
  if m1.Cursor.Col > 0 then { m1 with Cursor := ⟨m1.Cursor.Row, m1.Cursor.Col - 1⟩ }
  else m1

/-- The `handleUndo` (model.go): pop the undo stack; if non-empty, push the
current state onto the redo stack and adopt the popped entry. -/
def handleUndo (m : ModelState) : ModelState :=
  match UndoStack.Undo m.Undo with
  | (none, _) => m
  | (some entry, u1) =>
    let u2 := UndoStack.PushFuture u1 m.Lines m.Cursor
    { m with Undo := u2, Lines := entry.Lines, Cursor := entry.CursorPos,
             DesiredCol := entry.CursorPos.Col }

/-- The `handleRedo` (model.go): pop the redo stack; if non-empty, push the
current state onto the undo stack (without clearing redo) and adopt the
popped entry. -/
def handleRedo (m : ModelState) : ModelState :=
  match UndoStack.Redo m.Undo with
  | (none, _) => m
  | (some entry, u1) =>
    let u2 := UndoStack.PushPast u1 m.Lines m.Cursor
    { m with Undo := u2, Lines := entry.Lines, Cursor := entry.CursorPos,
             DesiredCol := entry.CursorPos.Col }

/-- The decimal digit keys a player types for a count prefix `n ∈ [1,99]`
(one key per digit, most significant first). -/
def digitKeys (n : Nat) : List String :=
  if n < 10 then [String.singleton (Char.ofNat (48 + n))]
  else [String.singleton (Char.ofNat (48 + n / 10)), String.singleton (Char.ofNat (48 + n % 10))]


theorem getL?_of_lt (lines : List Line) (i : Int) (h0 : 0 ≤ i) (h1 : i < (lines.length : Int)) :
    getL? lines i = some (lines.getD i.toNat []) := by
  rw [getL?, dif_pos ⟨h0, h1⟩, List.get_eq_getElem, List.getD_eq_getElem]

theorem getL?_isSome_iff (lines : List Line) (i : Int) :
    (getL? lines i).isSome ↔ 0 ≤ i ∧ i < (lines.length : Int) := by
  unfold getL?
  split <;> simp_all

theorem getC?_isSome_iff (s : Line) (i : Int) :
    (getC? s i).isSome ↔ 0 ≤ i ∧ i < (s.length : Int) := by
  unfold getC?
  split <;> simp_all

/-- C2: after `Save(S, p)` and an arbitrary buffer/cursor mutation, the
dispatcher's undo step restores exactly `S` and `p`, and the redo step
performed immediately afterwards restores the mutated lines and cursor. -/
theorem c2_undo_redo_roundtrip (S : List Line) (p : Position) (u : UndoStack)
    (L2 : List Line) (p2 : Position) (vm : VimMode) (dc : Int) (ip : InputParser) :
    (handleUndo ⟨L2, p2, vm, UndoStack.Save u S p, dc, ip⟩).Lines = S ∧
    (handleUndo ⟨L2, p2, vm, UndoStack.Save u S p, dc, ip⟩).Cursor = p ∧
    (handleRedo (handleUndo ⟨L2, p2, vm, UndoStack.Save u S p, dc, ip⟩)).Lines = L2 ∧
    (handleRedo (handleUndo ⟨L2, p2, vm, UndoStack.Save u S p, dc, ip⟩)).Cursor = p2 := by
  exact ⟨rfl, rfl, rfl, rfl⟩

/-- C8: `Save` pushes onto `Past` and clears `Future`; `Undo`, `Redo`,
`PushPast`, `PushFuture` each touch only their designated stack and leave the
other unchanged. -/
theorem c8_save_only_clears_future (u : UndoStack) (lines : List Line) (pos : Position) :
    (UndoStack.Save u lines pos).Future = [] ∧
    (UndoStack.Save u lines pos).Past = ⟨lines, pos⟩ :: u.Past ∧
    (UndoStack.Undo u).2.Future = u.Future ∧
    (UndoStack.Undo u).2.Past = u.Past.tail ∧
    (UndoStack.Redo u).2.Past = u.Past ∧
    (UndoStack.Redo u).2.Future = u.Future.tail ∧
    (UndoStack.PushPast u lines pos).Future = u.Future ∧
    (UndoStack.PushPast u lines pos).Past = ⟨lines, pos⟩ :: u.Past ∧
    (UndoStack.PushFuture u lines pos).Past = u.Past ∧
    (UndoStack.PushFuture u lines pos).Future = ⟨lines, pos⟩ :: u.Future := by
  obtain ⟨past, future⟩ := u
  refine ⟨rfl, rfl, ?_, ?_, ?_, ?_, rfl, rfl, rfl, rfl⟩ <;>
    cases past <;> cases future <;> rfl

/-- C10: processing `ActionExitInsert` switches to normal mode, moves the
cursor one column left exactly when the column is positive, and leaves the
buffer untouched; `esc` in insert mode parses to `ActionExitInsert`. -/
theorem c10_exit_insert (m : ModelState) (st : InputState) (fc : Char) (cnt : Int) :
    (handleExitInsert m).Lines = m.Lines ∧
    (handleExitInsert m).VimMode = .ModeNormal ∧
    (handleExitInsert m).Cursor.Row = m.Cursor.Row ∧
    (handleExitInsert m).Cursor.Col =
      (if m.Cursor.Col > 0 then m.Cursor.Col - 1 else m.Cursor.Col) ∧
    (InputParser.Feed ⟨.ModeInsert, st, fc, cnt⟩ ("esc")).2.Action = .ActionExitInsert ∧
    (InputParser.Feed ⟨.ModeInsert, st, fc, cnt⟩ ("esc")).1.Mode = .ModeNormal := by
  refine ⟨?_, ?_, ?_, ?_, ?_, ?_⟩
  · simp [handleExitInsert, apply_ite]
  · simp [handleExitInsert, apply_ite]
  · simp [handleExitInsert, apply_ite]
  · dsimp only [handleExitInsert]
    split_ifs <;> rfl
  · simp [InputParser.Feed, feedInsert]
  · simp [InputParser.Feed, feedInsert]


/-- C9: every buffer edit primitive preserves the invariant that the buffer
holds at least one line: the six total primitives return a non-empty line
list outright, and `DeleteCharBefore` does so whenever it returns at all
(its only other behaviour is the slice-bounds panic, which returns no
buffer). -/
theorem c9_at_least_one_line (lines : List Line) (row col : Int) (ch : Char)
    (h : 1 ≤ lines.length) :
    1 ≤ (DeleteChar lines row col).1.length ∧
    1 ≤ (ReplaceChar lines row col ch).1.length ∧
    1 ≤ (InsertChar lines row col ch).1.length ∧
    (∀ l2 q, DeleteCharBefore lines row col = some (l2, q) → 1 ≤ l2.length) ∧
    1 ≤ (SplitLine lines row col).1.length ∧
    1 ≤ (InsertLine lines row).1.length ∧
    1 ≤ (InsertLineAbove lines row).1.length := by
  have hdcb : ∀ l2 q, DeleteCharBefore lines row col = some (l2, q) → 1 ≤ l2.length := by
    intro l2 q hq
    dsimp only [DeleteCharBefore] at hq
    split_ifs at hq <;>
      first
        | exact Option.noConfusion hq
        | (simp only [Option.some.injEq, Prod.mk.injEq] at hq
           obtain ⟨h1, h2⟩ := hq
           subst h1
           first
             | (simp only [List.length_set, List.length_append, List.length_take,
                  List.length_drop, List.length_cons, List.length_nil]
                omega)
             | omega)
  refine ⟨?_, ?_, ?_, hdcb, ?_, ?_, ?_⟩ <;>
    [dsimp only [DeleteChar]; dsimp only [ReplaceChar]; dsimp only [InsertChar];
     dsimp only [SplitLine]; dsimp only [InsertLine];
     dsimp only [InsertLineAbove]] <;>
    split_ifs <;>
    simp only [List.length_set, List.length_append, List.length_take, List.length_drop,
      List.length_cons, List.length_nil] <;>
    omega

/-- C9 witness at a concrete input, exercising a concrete `some` return of
`DeleteCharBefore` alongside the non-emptiness of its result. -/
theorem c9_at_least_one_line_witness :
    1 ≤ ([[' ', 'a']] : List Line).length ∧
    DeleteCharBefore [[' ', 'a']] 0 1 = some ([['a']], ⟨0, 0⟩) ∧
    1 ≤ ([['a']] : List Line).length :=
  ⟨by decide, by decide,
   (c9_at_least_one_line [[' ', 'a']] 0 1 'b' (by decide)).2.2.2.1 [['a']] ⟨0, 0⟩
     (by decide)⟩


theorem set_take_succ {α : Type} (L : List α) (k : Nat) (v : α) (hk : k < L.length) :
    (L.set k v).take (k + 1) = L.take k ++ [v] := by
  induction L generalizing k with
  | nil => simp at hk
  | cons a t ih =>
    cases k with
    | zero => simp
    | succ k => simp [ih k (by simpa using hk)]

theorem set_drop_of_lt {α : Type} (L : List α) (k j : Nat) (v : α) (hkj : k < j) :
    (L.set k v).drop j = L.drop j := by
  induction L generalizing k j with
  | nil => simp
  | cons a t ih =>
    cases k with
    | zero =>
      cases j with
      | zero => omega
      | succ j => simp
    | succ k =>
      cases j with
      | zero => omega
      | succ j => simpa using ih k j (by omega)

theorem take_getD_drop {α : Type} (L : List α) (k : Nat) (d : α) (hk : k < L.length) :
    L.take k ++ L.getD k d :: L.drop (k + 1) = L := by
  induction L generalizing k with
  | nil => simp at hk
  | cons a t ih =>
    cases k with
    | zero => simp
    | succ k => simpa [List.getD] using ih k (by simpa using hk)

/-- C4: `DeleteCharBefore` deletes the character before the cursor when
`col > 0`; at column 0 of a non-first line it joins the line onto the end of
the previous one and places the cursor at the previous line's original
length; at (0,0) it is a no-op. -/
theorem c4_delete_char_before (lines : List Line) (row col : Int)
    (hr0 : 0 ≤ row) (hr1 : row < (lines.length : Int))
    (hc0 : 0 ≤ col) (hc1 : col ≤ ((lines.getD row.toNat []).length : Int)) :
    (col > 0 →
      DeleteCharBefore lines row col =
        some (lines.set row.toNat
          ((lines.getD row.toNat []).take (col.toNat - 1) ++
            (lines.getD row.toNat []).drop col.toNat),
         ⟨row, col - 1⟩)) ∧
    (col = 0 → row > 0 →
      DeleteCharBefore lines row col =
        some (lines.take (row.toNat - 1) ++
          [lines.getD (row.toNat - 1) [] ++ lines.getD row.toNat []] ++
          lines.drop (row.toNat + 1),
         ⟨row - 1, ((lines.getD (row.toNat - 1) []).length : Int)⟩)) ∧
    (col = 0 → row = 0 → DeleteCharBefore lines row col = some (lines, ⟨0, 0⟩)) := by
  have hguard : ¬ (row < 0 ∨ row ≥ (lines.length : Int)) := by omega
  refine ⟨?_, ?_, ?_⟩
  · intro hpos
    dsimp only [DeleteCharBefore]
    rw [if_neg hguard, if_pos hpos,
      if_neg (by omega : ¬ col > ((lines.getD row.toNat []).length : Int)),
      if_neg (by omega : ¬ col - 1 < 0),
      (show (col - 1).toNat = col.toNat - 1 by omega)]
  · intro hz hrpos
    dsimp only [DeleteCharBefore]
    rw [if_neg hguard, if_neg (by omega : ¬ col > 0), if_neg (by omega : ¬ row = 0)]
    obtain ⟨k, hk⟩ : ∃ k, row.toNat = k + 1 := ⟨row.toNat - 1, by omega⟩
    rw [hk]
    simp only [Nat.add_sub_cancel]
    rw [set_take_succ lines k _ (by omega), set_drop_of_lt lines k (k + 1 + 1) _ (by omega)]
  · intro hz hrz
    dsimp only [DeleteCharBefore]
    rw [if_neg hguard, if_neg (by omega : ¬ col > 0), if_pos hrz]

/-- C4 witness: the spec's example, backspace at (1,0) on lines ab, cd. -/
theorem c4_delete_char_before_witness :
    DeleteCharBefore [['a', 'b'], ['c', 'd']] 1 0 = some ([['a', 'b', 'c', 'd']], ⟨0, 2⟩) := by
  have h := (c4_delete_char_before [['a', 'b'], ['c', 'd']] 1 0 (by decide) (by decide)
    (by decide) (by decide)).2.1 rfl (by decide)
  rw [h]
  decide


theorem set_middle {α : Type} (A : List α) (x v : α) (B : List α) :
    (A ++ x :: B).set A.length v = A ++ v :: B := by
  induction A with
  | nil => rfl
  | cons a t ih => simp [ih]

theorem take_middle {α : Type} (A : List α) (x : α) (B : List α) :
    (A ++ x :: B).take (A.length + 1) = A ++ [x] := by
  induction A with
  | nil => rfl
  | cons a t ih => simp [ih]

theorem drop_middle2 {α : Type} (A : List α) (x y : α) (B : List α) :
    (A ++ x :: y :: B).drop (A.length + 2) = B := by
  induction A with
  | nil => rfl
  | cons a t ih => simpa using ih

theorem deleteCharBefore_at_split (lines : List Line) (j : Int) (t d : Line)
    (hj0 : 0 ≤ j) (hj : j < (lines.length : Int)) :
    DeleteCharBefore (lines.take j.toNat ++ t :: d :: lines.drop (j.toNat + 1)) (j + 1) 0
      = some (lines.take j.toNat ++ (t ++ d) :: lines.drop (j.toNat + 1),
          ⟨j, (t.length : Int)⟩) := by
  have hAlen : (lines.take j.toNat).length = j.toNat := by
    simp
    omega
  have hlen : (lines.take j.toNat ++ t :: d :: lines.drop (j.toNat + 1)).length
      = lines.length + 1 := by
    simp
    omega
  dsimp only [DeleteCharBefore]
  rw [if_neg (show ¬ (j + 1 < 0 ∨ j + 1 ≥
        ((lines.take j.toNat ++ t :: d :: lines.drop (j.toNat + 1)).length : Int)) by
      rw [hlen]; push_cast; omega),
    if_neg (by omega : ¬ (0 : Int) > 0), if_neg (by omega : ¬ j + 1 = 0)]
  have ht1 : (j + 1).toNat = j.toNat + 1 := by omega
  rw [ht1]
  simp only [Nat.add_sub_cancel]
  have hprevq : (lines.take j.toNat ++ t :: d :: lines.drop (j.toNat + 1))[j.toNat]? = some t := by
    rw [List.getElem?_append, hAlen]
    simp
  have hcurq : (lines.take j.toNat ++ t :: d :: lines.drop (j.toNat + 1))[j.toNat + 1]?
      = some d := by
    rw [List.getElem?_append, hAlen]
    simp
  have hprev : (lines.take j.toNat ++ t :: d :: lines.drop (j.toNat + 1)).getD j.toNat [] = t := by
    rw [List.getD_eq_getElem?_getD, hprevq]
    rfl
  have hcur : (lines.take j.toNat ++ t :: d :: lines.drop (j.toNat + 1)).getD
      (j.toNat + 1) [] = d := by
    rw [List.getD_eq_getElem?_getD, hcurq]
    rfl
  rw [hprev, hcur]
  have hset : (lines.take j.toNat ++ t :: d :: lines.drop (j.toNat + 1)).set j.toNat (t ++ d)
      = lines.take j.toNat ++ (t ++ d) :: d :: lines.drop (j.toNat + 1) := by
    have h := set_middle (lines.take j.toNat) t (t ++ d) (d :: lines.drop (j.toNat + 1))
    rw [hAlen] at h
    exact h
  rw [hset]
  have htake : (lines.take j.toNat ++ (t ++ d) :: d :: lines.drop (j.toNat + 1)).take
      (j.toNat + 1) = lines.take j.toNat ++ [t ++ d] := by
    have h := take_middle (lines.take j.toNat) (t ++ d) (d :: lines.drop (j.toNat + 1))
    rw [hAlen] at h
    exact h
  have hdrop : (lines.take j.toNat ++ (t ++ d) :: d :: lines.drop (j.toNat + 1)).drop
      (j.toNat + 1 + 1) = lines.drop (j.toNat + 1) := by
    have h := drop_middle2 (lines.take j.toNat) (t ++ d) d (lines.drop (j.toNat + 1))
    rw [hAlen] at h
    exact h
  rw [htake, hdrop]
  simp only [Option.some.injEq, Prod.mk.injEq, Position.mk.injEq, List.append_assoc,
    List.singleton_append]
  exact ⟨trivial, by omega, trivial⟩


/-- C5 counterexample: splitting at an out-of-range column (5 on a 2-character
line) and backspacing at the resulting cursor restores the line but puts the
cursor at the clamped column 2, not the original split column 5. -/
theorem c5_counterexample :
    (SplitLine [['a', 'b']] 0 5).2 = ⟨1, 0⟩ ∧
    DeleteCharBefore (SplitLine [['a', 'b']] 0 5).1 1 0 = some ([['a', 'b']], ⟨0, 2⟩) ∧
    ((⟨0, 2⟩ : Position) ≠ ⟨0, 5⟩) := by decide

/-- C5 (amended): for an in-range row and a split column within
[0, line length], `SplitLine` followed by `DeleteCharBefore` at the returned
cursor restores the original lines exactly and returns cursor (row, col). -/
theorem c5_amended (lines : List Line) (row col : Int)
    (hr0 : 0 ≤ row) (hr1 : row < (lines.length : Int))
    (hc0 : 0 ≤ col) (hc1 : col ≤ ((lines.getD row.toNat []).length : Int)) :
    DeleteCharBefore (SplitLine lines row col).1 (SplitLine lines row col).2.Row
        (SplitLine lines row col).2.Col = some (lines, ⟨row, col⟩) := by
  have hguard : ¬ (row < 0 ∨ row ≥ (lines.length : Int)) := by omega
  dsimp only [SplitLine]
  rw [if_neg hguard, if_neg (by omega : ¬ col < 0),
    if_neg (by omega : ¬ col > ((lines.getD row.toNat []).length : Int))]
  have hL1 : (lines.set row.toNat ((lines.getD row.toNat []).take col.toNat)).take
        (row.toNat + 1) ++ [(lines.getD row.toNat []).drop col.toNat] ++
        (lines.set row.toNat ((lines.getD row.toNat []).take col.toNat)).drop (row.toNat + 1)
      = lines.take row.toNat ++ (lines.getD row.toNat []).take col.toNat ::
          (lines.getD row.toNat []).drop col.toNat :: lines.drop (row.toNat + 1) := by
    rw [set_take_succ lines row.toNat _ (by omega),
      set_drop_of_lt lines row.toNat (row.toNat + 1) _ (by omega)]
    simp
  rw [hL1]
  rw [deleteCharBefore_at_split lines row ((lines.getD row.toNat []).take col.toNat)
    ((lines.getD row.toNat []).drop col.toNat) hr0 hr1]
  rw [List.take_append_drop]
  rw [take_getD_drop lines row.toNat [] (by omega)]
  simp only [Option.some.injEq, Prod.mk.injEq, Position.mk.injEq, List.length_take]
  refine ⟨trivial, trivial, by omega⟩

/-- C5 amended witness at a concrete input. -/
theorem c5_amended_witness :
    DeleteCharBefore (SplitLine [['a', 'b']] 0 1).1 (SplitLine [['a', 'b']] 0 1).2.Row
      (SplitLine [['a', 'b']] 0 1).2.Col = some ([['a', 'b']], ⟨0, 1⟩) :=
  c5_amended [['a', 'b']] 0 1 (by decide) (by decide) (by decide) (by decide)


/-- C7 counterexample: in the pending-`r` state, a multi-character key such
as a named arrow key is consumed (swallowed), not reported with
`Consumed = false` as the claim requires. -/
theorem c7_counterexample :
    ¬ ((InputParser.Feed ⟨.ModeNormal, .InputPendingR, .ofNat 0, 0⟩ ("up")).2.Consumed
        = false) := by decide

/-- C7 (amended): in normal mode, in the states Ready, PendingG, PendingF and
PendingBigF, any multi-character key other than the literal `ctrl+r` resets
the state to Ready, clears the count, and is unconsumed; `ctrl+r` yields the
Redo action; in PendingR, however, every key — multi-character keys and
`ctrl+r` included — is consumed with no action, with state reset and count
cleared. -/
theorem c7_amended (p : InputParser) (key : String) (hmode : p.Mode = .ModeNormal) :
    (p.State ≠ .InputPendingR → key.data.length ≠ 1 → key ≠ "ctrl+r" →
      p.Feed key = ({ p with State := .InputReady, Count := 0 },
        { Motion := .MotionNone, Action := .ActionNone, Char := .ofNat 0,
          Consumed := false, Count := 0, EnterMode := .ModeNormal })) ∧
    (p.State ≠ .InputPendingR → key = "ctrl+r" →
      p.Feed key = ({ p with State := .InputReady, Count := 0 },
        { Action := .ActionRedo, Consumed := true })) ∧
    (p.State = .InputPendingR →
      (p.Feed key).2.Consumed = true ∧ (p.Feed key).2.Action ≠ .ActionRedo ∧
      (p.Feed key).1.State = .InputReady ∧ (p.Feed key).1.Count = 0) := by
  refine ⟨?_, ?_, ?_⟩
  · intro hnr hlen hc
    dsimp only [InputParser.Feed]
    rw [if_neg (show ¬ p.Mode = VimMode.ModeInsert by rw [hmode]; decide)]
    dsimp only [feedNormal]
    rw [if_neg hnr, if_neg hc]
    match hkd : key.data with
    | [] => rfl
    | [ch] => exact absurd (show key.data.length = 1 by rw [hkd]; rfl) hlen
    | ch1 :: ch2 :: rest => rfl
  · intro hnr hc
    dsimp only [InputParser.Feed]
    rw [if_neg (show ¬ p.Mode = VimMode.ModeInsert by rw [hmode]; decide)]
    dsimp only [feedNormal]
    rw [if_neg hnr, hc, if_pos (rfl : ("ctrl+r" : String) = "ctrl+r")]
  · intro hpr
    dsimp only [InputParser.Feed]
    rw [if_neg (show ¬ p.Mode = VimMode.ModeInsert by rw [hmode]; decide)]
    dsimp only [feedNormal]
    rw [if_pos hpr]
    match key.data with
    | [] => exact ⟨rfl, fun hx => Action.noConfusion hx, rfl, rfl⟩
    | [ch] =>
      by_cases hp : goIsPrint ch = true
      · simp only [hp]
        exact ⟨rfl, fun hx => Action.noConfusion hx, rfl, rfl⟩
      · rw [Bool.not_eq_true] at hp
        simp only [hp]
        exact ⟨rfl, fun hx => Action.noConfusion hx, rfl, rfl⟩
    | ch1 :: ch2 :: rest => exact ⟨rfl, fun hx => Action.noConfusion hx, rfl, rfl⟩

/-- C7 amended witness at a concrete pending-`g` parser and key. -/
theorem c7_amended_witness :
    InputParser.Feed ⟨.ModeNormal, .InputPendingG, .ofNat 0, 5⟩ ("left")
      = ({ Mode := .ModeNormal, State := .InputReady, FChar := .ofNat 0, Count := 0 },
         { Motion := .MotionNone, Action := .ActionNone, Char := .ofNat 0,
           Consumed := false, Count := 0, EnterMode := .ModeNormal }) :=
  (c7_amended ⟨.ModeNormal, .InputPendingG, .ofNat 0, 5⟩ ("left") rfl).1 (by decide)
    (by decide) (by decide)


/-- C6: dispatching the insert-entry action of key `a` advances the cursor
column by exactly one only when the cursor is not already at end-of-line and
leaves it unchanged otherwise; the action of key `A` always places the
cursor at the end of the current line.  Neither changes the buffer lines. -/
theorem c6_insert_entry (m : ModelState) (r : ParseResult)
    (h0 : 0 ≤ m.Cursor.Row) (h1 : m.Cursor.Row < (m.Lines.length : Int)) :
    (r.Action = .ActionInsertAfter →
      (handleEnterInsert m r).map (fun m2 => m2.Cursor)
        = some ⟨m.Cursor.Row,
            if m.Cursor.Col < ((m.Lines.getD m.Cursor.Row.toNat []).length : Int)
            then m.Cursor.Col + 1 else m.Cursor.Col⟩ ∧
      (handleEnterInsert m r).map (fun m2 => m2.Lines) = some m.Lines) ∧
    (r.Action = .ActionAppendEOL →
      (handleEnterInsert m r).map (fun m2 => m2.Cursor)
        = some ⟨m.Cursor.Row, ((m.Lines.getD m.Cursor.Row.toNat []).length : Int)⟩ ∧
      (handleEnterInsert m r).map (fun m2 => m2.Lines) = some m.Lines) ∧
    ((resetParser.Feed ("a")).2.Action = .ActionInsertAfter ∧
     (resetParser.Feed ("a")).2.EnterMode = .ModeInsert ∧
     (resetParser.Feed ("A")).2.Action = .ActionAppendEOL ∧
     (resetParser.Feed ("A")).2.EnterMode = .ModeInsert) := by
  refine ⟨?_, ?_, by decide⟩
  · intro hact
    dsimp only [handleEnterInsert]
    rw [hact]
    rw [getL?_of_lt _ _ h0 h1]
    dsimp only
    split_ifs with hcl
    · exact ⟨rfl, rfl⟩
    · exact ⟨rfl, rfl⟩
  · intro hact
    dsimp only [handleEnterInsert]
    rw [hact]
    rw [getL?_of_lt _ _ h0 h1]
    exact ⟨rfl, rfl⟩

/-- C6 witness at a concrete state and parse result. -/
theorem c6_insert_entry_witness :
    (handleEnterInsert ⟨[['a', 'b']], ⟨0, 0⟩, .ModeNormal, ⟨[], []⟩, 0, {}⟩
        { Action := .ActionInsertAfter }).map (fun m2 => m2.Cursor)
      = some ⟨0, if (0 : Int) < (([['a', 'b']].getD 0 []).length : Int) then 0 + 1 else 0⟩ ∧
    (handleEnterInsert ⟨[['a', 'b']], ⟨0, 0⟩, .ModeNormal, ⟨[], []⟩, 0, {}⟩
        { Action := .ActionInsertAfter }).map (fun m2 => m2.Lines) = some [['a', 'b']] :=
  (c6_insert_entry ⟨[['a', 'b']], ⟨0, 0⟩, .ModeNormal, ⟨[], []⟩, 0, {}⟩
    { Action := .ActionInsertAfter } (by decide) (by decide)).1 rfl


theorem digits_parser_eq :
    ∀ n ∈ Finset.Icc 1 99,
      feedAll resetParser (digitKeys n)
        = ⟨.ModeNormal, .InputReady, .ofNat 0, (n : Int)⟩ := by decide

theorem feedAll_append (p : InputParser) (xs ys : List String) :
    feedAll p (xs ++ ys) = feedAll (feedAll p xs) ys := by
  induction xs generalizing p with
  | nil => rfl
  | cons x t ih => simp [feedAll, ih]

theorem feed_motion_key_ready (cnt : Int) (fc : Char) (c : Char) (m : Motion)
    (hcm : (c, m) ∈ ([('h', Motion.MotionH), ('j', Motion.MotionJ), ('k', Motion.MotionK),
      ('l', Motion.MotionL), ('w', Motion.MotionW), ('b', Motion.MotionB),
      ('e', Motion.MotionE), ('$', Motion.MotionDollar), ('^', Motion.MotionCaret),
      ('G', Motion.MotionBigG)] : List (Char × Motion))) :
    (InputParser.Feed ⟨.ModeNormal, .InputReady, fc, cnt⟩ (String.singleton c)).2
      = { Action := .ActionMotion, Motion := m, Consumed := true, Count := cnt } ∧
    (InputParser.Feed ⟨.ModeNormal, .InputReady, fc, cnt⟩ (String.singleton c)).1
      = ⟨.ModeNormal, .InputReady, fc, 0⟩ := by
  fin_cases hcm
  · have hkey : String.singleton 'h' ≠ "ctrl+r" := by decide
    dsimp only [InputParser.Feed]
    rw [if_neg (by decide : ¬ (VimMode.ModeNormal = VimMode.ModeInsert))]
    dsimp only [feedNormal]
    rw [if_neg (by decide : ¬ (InputState.InputReady = InputState.InputPendingR)), if_neg hkey]
    have hd : (String.singleton 'h').data = ['h'] := rfl
    rw [hd]
    dsimp only [feedNormalChar]
    rw [if_neg (show ¬ (('1' : Char) ≤ 'h' ∧ ('h' : Char) ≤ '9' ∧ cnt = 0) from
        fun hx => absurd (And.intro hx.1 hx.2.1) (by decide)),
      if_neg (show ¬ (('0' : Char) ≤ 'h' ∧ ('h' : Char) ≤ '9' ∧ cnt > 0) from
        fun hx => absurd (And.intro hx.1 hx.2.1) (by decide))]
    exact ⟨rfl, rfl⟩
  · have hkey : String.singleton 'j' ≠ "ctrl+r" := by decide
    dsimp only [InputParser.Feed]
    rw [if_neg (by decide : ¬ (VimMode.ModeNormal = VimMode.ModeInsert))]
    dsimp only [feedNormal]
    rw [if_neg (by decide : ¬ (InputState.InputReady = InputState.InputPendingR)), if_neg hkey]
    have hd : (String.singleton 'j').data = ['j'] := rfl
    rw [hd]
    dsimp only [feedNormalChar]
    rw [if_neg (show ¬ (('1' : Char) ≤ 'j' ∧ ('j' : Char) ≤ '9' ∧ cnt = 0) from
        fun hx => absurd (And.intro hx.1 hx.2.1) (by decide)),
      if_neg (show ¬ (('0' : Char) ≤ 'j' ∧ ('j' : Char) ≤ '9' ∧ cnt > 0) from
        fun hx => absurd (And.intro hx.1 hx.2.1) (by decide))]
    exact ⟨rfl, rfl⟩
  · have hkey : String.singleton 'k' ≠ "ctrl+r" := by decide
    dsimp only [InputParser.Feed]
    rw [if_neg (by decide : ¬ (VimMode.ModeNormal = VimMode.ModeInsert))]
    dsimp only [feedNormal]
    rw [if_neg (by decide : ¬ (InputState.InputReady = InputState.InputPendingR)), if_neg hkey]
    have hd : (String.singleton 'k').data = ['k'] := rfl
    rw [hd]
    dsimp only [feedNormalChar]
    rw [if_neg (show ¬ (('1' : Char) ≤ 'k' ∧ ('k' : Char) ≤ '9' ∧ cnt = 0) from
        fun hx => absurd (And.intro hx.1 hx.2.1) (by decide)),
      if_neg (show ¬ (('0' : Char) ≤ 'k' ∧ ('k' : Char) ≤ '9' ∧ cnt > 0) from
        fun hx => absurd (And.intro hx.1 hx.2.1) (by decide))]
    exact ⟨rfl, rfl⟩
  · have hkey : String.singleton 'l' ≠ "ctrl+r" := by decide
    dsimp only [InputParser.Feed]
    rw [if_neg (by decide : ¬ (VimMode.ModeNormal = VimMode.ModeInsert))]
    dsimp only [feedNormal]
    rw [if_neg (by decide : ¬ (InputState.InputReady = InputState.InputPendingR)), if_neg hkey]
    have hd : (String.singleton 'l').data = ['l'] := rfl
    rw [hd]
    dsimp only [feedNormalChar]
    rw [if_neg (show ¬ (('1' : Char) ≤ 'l' ∧ ('l' : Char) ≤ '9' ∧ cnt = 0) from
        fun hx => absurd (And.intro hx.1 hx.2.1) (by decide)),
      if_neg (show ¬ (('0' : Char) ≤ 'l' ∧ ('l' : Char) ≤ '9' ∧ cnt > 0) from
        fun hx => absurd (And.intro hx.1 hx.2.1) (by decide))]
    exact ⟨rfl, rfl⟩
  · have hkey : String.singleton 'w' ≠ "ctrl+r" := by decide
    dsimp only [InputParser.Feed]
    rw [if_neg (by decide : ¬ (VimMode.ModeNormal = VimMode.ModeInsert))]
    dsimp only [feedNormal]
    rw [if_neg (by decide : ¬ (InputState.InputReady = InputState.InputPendingR)), if_neg hkey]
    have hd : (String.singleton 'w').data = ['w'] := rfl
    rw [hd]
    dsimp only [feedNormalChar]
    rw [if_neg (show ¬ (('1' : Char) ≤ 'w' ∧ ('w' : Char) ≤ '9' ∧ cnt = 0) from
        fun hx => absurd (And.intro hx.1 hx.2.1) (by decide)),
      if_neg (show ¬ (('0' : Char) ≤ 'w' ∧ ('w' : Char) ≤ '9' ∧ cnt > 0) from
        fun hx => absurd (And.intro hx.1 hx.2.1) (by decide))]
    exact ⟨rfl, rfl⟩
  · have hkey : String.singleton 'b' ≠ "ctrl+r" := by decide
    dsimp only [InputParser.Feed]
    rw [if_neg (by decide : ¬ (VimMode.ModeNormal = VimMode.ModeInsert))]
    dsimp only [feedNormal]
    rw [if_neg (by decide : ¬ (InputState.InputReady = InputState.InputPendingR)), if_neg hkey]
    have hd : (String.singleton 'b').data = ['b'] := rfl
    rw [hd]
    dsimp only [feedNormalChar]
    rw [if_neg (show ¬ (('1' : Char) ≤ 'b' ∧ ('b' : Char) ≤ '9' ∧ cnt = 0) from
        fun hx => absurd (And.intro hx.1 hx.2.1) (by decide)),
      if_neg (show ¬ (('0' : Char) ≤ 'b' ∧ ('b' : Char) ≤ '9' ∧ cnt > 0) from
        fun hx => absurd (And.intro hx.1 hx.2.1) (by decide))]
    exact ⟨rfl, rfl⟩
  · have hkey : String.singleton 'e' ≠ "ctrl+r" := by decide
    dsimp only [InputParser.Feed]
    rw [if_neg (by decide : ¬ (VimMode.ModeNormal = VimMode.ModeInsert))]
    dsimp only [feedNormal]
    rw [if_neg (by decide : ¬ (InputState.InputReady = InputState.InputPendingR)), if_neg hkey]
    have hd : (String.singleton 'e').data = ['e'] := rfl
    rw [hd]
    dsimp only [feedNormalChar]
    rw [if_neg (show ¬ (('1' : Char) ≤ 'e' ∧ ('e' : Char) ≤ '9' ∧ cnt = 0) from
        fun hx => absurd (And.intro hx.1 hx.2.1) (by decide)),
      if_neg (show ¬ (('0' : Char) ≤ 'e' ∧ ('e' : Char) ≤ '9' ∧ cnt > 0) from
        fun hx => absurd (And.intro hx.1 hx.2.1) (by decide))]
    exact ⟨rfl, rfl⟩
  · have hkey : String.singleton '$' ≠ "ctrl+r" := by decide
    dsimp only [InputParser.Feed]
    rw [if_neg (by decide : ¬ (VimMode.ModeNormal = VimMode.ModeInsert))]
    dsimp only [feedNormal]
    rw [if_neg (by decide : ¬ (InputState.InputReady = InputState.InputPendingR)), if_neg hkey]
    have hd : (String.singleton '$').data = ['$'] := rfl
    rw [hd]
    dsimp only [feedNormalChar]
    rw [if_neg (show ¬ (('1' : Char) ≤ '$' ∧ ('$' : Char) ≤ '9' ∧ cnt = 0) from
        fun hx => absurd (And.intro hx.1 hx.2.1) (by decide)),
      if_neg (show ¬ (('0' : Char) ≤ '$' ∧ ('$' : Char) ≤ '9' ∧ cnt > 0) from
        fun hx => absurd (And.intro hx.1 hx.2.1) (by decide))]
    exact ⟨rfl, rfl⟩
  · have hkey : String.singleton '^' ≠ "ctrl+r" := by decide
    dsimp only [InputParser.Feed]
    rw [if_neg (by decide : ¬ (VimMode.ModeNormal = VimMode.ModeInsert))]
    dsimp only [feedNormal]
    rw [if_neg (by decide : ¬ (InputState.InputReady = InputState.InputPendingR)), if_neg hkey]
    have hd : (String.singleton '^').data = ['^'] := rfl
    rw [hd]
    dsimp only [feedNormalChar]
    rw [if_neg (show ¬ (('1' : Char) ≤ '^' ∧ ('^' : Char) ≤ '9' ∧ cnt = 0) from
        fun hx => absurd (And.intro hx.1 hx.2.1) (by decide)),
      if_neg (show ¬ (('0' : Char) ≤ '^' ∧ ('^' : Char) ≤ '9' ∧ cnt > 0) from
        fun hx => absurd (And.intro hx.1 hx.2.1) (by decide))]
    exact ⟨rfl, rfl⟩
  · have hkey : String.singleton 'G' ≠ "ctrl+r" := by decide
    dsimp only [InputParser.Feed]
    rw [if_neg (by decide : ¬ (VimMode.ModeNormal = VimMode.ModeInsert))]
    dsimp only [feedNormal]
    rw [if_neg (by decide : ¬ (InputState.InputReady = InputState.InputPendingR)), if_neg hkey]
    have hd : (String.singleton 'G').data = ['G'] := rfl
    rw [hd]
    dsimp only [feedNormalChar]
    rw [if_neg (show ¬ (('1' : Char) ≤ 'G' ∧ ('G' : Char) ≤ '9' ∧ cnt = 0) from
        fun hx => absurd (And.intro hx.1 hx.2.1) (by decide)),
      if_neg (show ¬ (('0' : Char) ≤ 'G' ∧ ('G' : Char) ≤ '9' ∧ cnt > 0) from
        fun hx => absurd (And.intro hx.1 hx.2.1) (by decide))]
    exact ⟨rfl, rfl⟩

theorem feed_g_ready (cnt : Int) (fc : Char) :
    InputParser.Feed ⟨.ModeNormal, .InputReady, fc, cnt⟩ (String.singleton 'g')
      = (⟨.ModeNormal, .InputPendingG, fc, 0⟩, { Consumed := true }) := by
  have hkey : String.singleton 'g' ≠ "ctrl+r" := by decide
  dsimp only [InputParser.Feed]
  rw [if_neg (by decide : ¬ (VimMode.ModeNormal = VimMode.ModeInsert))]
  dsimp only [feedNormal]
  rw [if_neg (by decide : ¬ (InputState.InputReady = InputState.InputPendingR)), if_neg hkey]
  have hd : (String.singleton 'g').data = ['g'] := rfl
  rw [hd]
  dsimp only [feedNormalChar]
  rw [if_neg (show ¬ (('1' : Char) ≤ 'g' ∧ ('g' : Char) ≤ '9' ∧ cnt = 0) from
      fun hx => absurd (And.intro hx.1 hx.2.1) (by decide)),
    if_neg (show ¬ (('0' : Char) ≤ 'g' ∧ ('g' : Char) ≤ '9' ∧ cnt > 0) from
      fun hx => absurd (And.intro hx.1 hx.2.1) (by decide))]
  rfl

theorem applyMotionN_eq_iterate (lines : List Line) (m : Motion) (t : Char) :
    ∀ (k : Nat) (cur : Position),
      applyMotionN lines m t k cur
        = (fun o => o.bind fun c2 => ApplyMotion lines c2 m t)^[k] (some cur) := by
  intro k
  induction k with
  | zero => intro cur; simp [applyMotionN]
  | succ k ih =>
    intro cur
    rw [Function.iterate_succ_apply]
    cases h : ApplyMotion lines cur m t with
    | none =>
      have h2 : applyMotionN lines m t (k + 1) cur = none := by simp [applyMotionN, h]
      have h3 : ((some cur).bind fun c2 => ApplyMotion lines c2 m t) = none := by
        simp [h]
      rw [h2, h3]
      exact (Function.iterate_fixed (by simp) k).symm
    | some c2 =>
      have h2 : applyMotionN lines m t (k + 1) cur = applyMotionN lines m t k c2 := by
        simp [applyMotionN, h]
      have h3 : ((some cur).bind fun c3 => ApplyMotion lines c3 m t) = some c2 := by
        simp [h]
      rw [h2, h3]
      exact ih c2


theorem motionStep_count_loop (lines : List Line) (r : ParseResult) (cur : Position)
    (hm1 : r.Motion ≠ .MotionGG) (hm2 : r.Motion ≠ .MotionBigG) (hc : 0 < r.Count) :
    motionStep lines r cur
      = (fun o => o.bind fun c2 => ApplyMotion lines c2 r.Motion r.Char)^[r.Count.toNat]
          (some cur) := by
  dsimp only [motionStep]
  rw [if_neg (show ¬ (r.Count > 0 ∧ (r.Motion = .MotionGG ∨ r.Motion = .MotionBigG)) from
      fun hx => hx.2.elim hm1 hm2)]
  rw [if_neg (by omega : ¬ r.Count = 0)]
  exact applyMotionN_eq_iterate lines r.Motion r.Char r.Count.toNat cur

theorem motionStep_gg_jump (lines : List Line) (r : ParseResult) (cur : Position)
    (hm : r.Motion = .MotionGG ∨ r.Motion = .MotionBigG) (hc : 0 < r.Count) :
    motionStep lines r cur
      = some ⟨max 0 (min (r.Count - 1) ((lines.length : Int) - 1)), 0⟩ := by
  dsimp only [motionStep]
  rw [if_pos (And.intro hc hm)]
  simp only [Option.some.injEq, Position.mk.injEq]
  refine ⟨?_, trivial⟩
  split_ifs <;> omega

theorem digit_cap :
    ∀ cnt ∈ Finset.Icc (0 : ℕ) 99, ∀ d ∈ Finset.Icc (0 : ℕ) 9,
      0 ≤ (InputParser.Feed ⟨.ModeNormal, .InputReady, .ofNat 0, (cnt : Int)⟩
          (String.singleton (Char.ofNat (48 + d)))).1.Count ∧
      (InputParser.Feed ⟨.ModeNormal, .InputReady, .ofNat 0, (cnt : Int)⟩
          (String.singleton (Char.ofNat (48 + d)))).1.Count ≤ 99 := by decide


/-- C1 counterexample: the parser zeroes the accumulated count when the
first `g` of `gg` arrives, so the keystrokes `3gg` deliver `MotionGG` with
count 0 and the dispatcher jumps to row 0, not to row `n-1 = 2`. -/
theorem c1_counterexample :
    ((feedAll resetParser [("3" : String), "g"]).Feed (String.singleton 'g')).2.Motion
        = .MotionGG ∧
    ((feedAll resetParser [("3" : String), "g"]).Feed (String.singleton 'g')).2.Count = 0 ∧
    handleMotion [['a'], ['b'], ['c']] ⟨2, 0⟩ 0
        ((feedAll resetParser [("3" : String), "g"]).Feed (String.singleton 'g')).2
      = some (⟨0, 0⟩, 0) ∧
    ((⟨0, 0⟩ : Position) ≠ ⟨3 - 1, 0⟩) := by decide

/-- C1 (amended): a count prefix `n ∈ [1,99]` typed as digit keys accumulates
exactly `n` in the parser; a following single-key motion
(`h j k l w b e $ ^` or `G`) is delivered with count `n`, upon which the
dispatcher applies `ApplyMotion` exactly `n` times (n-fold iterate), except
that for `gg`/`G` with an explicit count it jumps directly to row `n-1`
clamped into buffer bounds.  However, the parser discards the count on the
first `g` of `gg`, so `n` followed by `gg` yields `MotionGG` with count 0
(one plain `gg` jump to row 0).  Digit accumulation keeps the count within
[0, 99]. -/
theorem c1_amended :
    (∀ n : ℕ, 1 ≤ n → n ≤ 99 →
      feedAll resetParser (digitKeys n)
        = ⟨.ModeNormal, .InputReady, .ofNat 0, (n : Int)⟩) ∧
    (∀ n : ℕ, 1 ≤ n → n ≤ 99 → ∀ (c : Char) (m : Motion),
      (c, m) ∈ ([('h', Motion.MotionH), ('j', Motion.MotionJ), ('k', Motion.MotionK),
        ('l', Motion.MotionL), ('w', Motion.MotionW), ('b', Motion.MotionB),
        ('e', Motion.MotionE), ('$', Motion.MotionDollar), ('^', Motion.MotionCaret),
        ('G', Motion.MotionBigG)] : List (Char × Motion)) →
      ((feedAll resetParser (digitKeys n)).Feed (String.singleton c)).2
        = { Action := .ActionMotion, Motion := m, Consumed := true, Count := (n : Int) }) ∧
    (∀ (lines : List Line) (r : ParseResult) (cur : Position),
      r.Motion ≠ .MotionGG → r.Motion ≠ .MotionBigG → 0 < r.Count →
      motionStep lines r cur
        = (fun o => o.bind fun c2 => ApplyMotion lines c2 r.Motion r.Char)^[r.Count.toNat]
            (some cur)) ∧
    (∀ (lines : List Line) (r : ParseResult) (cur : Position),
      (r.Motion = .MotionGG ∨ r.Motion = .MotionBigG) → 0 < r.Count →
      motionStep lines r cur
        = some ⟨max 0 (min (r.Count - 1) ((lines.length : Int) - 1)), 0⟩) ∧
    (∀ n : ℕ, 1 ≤ n → n ≤ 99 →
      ((feedAll resetParser (digitKeys n ++ [String.singleton 'g'])).Feed
          (String.singleton 'g')).2
        = { Action := .ActionMotion, Motion := .MotionGG, Consumed := true, Count := 0 }) ∧
    (∀ cnt ∈ Finset.Icc (0 : ℕ) 99, ∀ d ∈ Finset.Icc (0 : ℕ) 9,
      0 ≤ (InputParser.Feed ⟨.ModeNormal, .InputReady, .ofNat 0, (cnt : Int)⟩
          (String.singleton (Char.ofNat (48 + d)))).1.Count ∧
      (InputParser.Feed ⟨.ModeNormal, .InputReady, .ofNat 0, (cnt : Int)⟩
          (String.singleton (Char.ofNat (48 + d)))).1.Count ≤ 99) := by
  refine ⟨?_, ?_, motionStep_count_loop, motionStep_gg_jump, ?_, digit_cap⟩
  · intro n h1 h2
    exact digits_parser_eq n (Finset.mem_Icc.mpr ⟨h1, h2⟩)
  · intro n h1 h2 c m hcm
    rw [digits_parser_eq n (Finset.mem_Icc.mpr ⟨h1, h2⟩)]
    exact (feed_motion_key_ready (n : Int) (.ofNat 0) c m hcm).1
  · intro n h1 h2
    rw [feedAll_append, digits_parser_eq n (Finset.mem_Icc.mpr ⟨h1, h2⟩)]
    have hstep : feedAll ⟨.ModeNormal, .InputReady, .ofNat 0, (n : Int)⟩
        [String.singleton 'g'] = ⟨.ModeNormal, .InputPendingG, .ofNat 0, 0⟩ := by
      show (InputParser.Feed ⟨.ModeNormal, .InputReady, .ofNat 0, (n : Int)⟩
        (String.singleton 'g')).1 = _
      rw [feed_g_ready (n : Int) (.ofNat 0)]
    rw [hstep]
    decide

/-- C1 amended witness at the count prefix 3. -/
theorem c1_amended_witness :
    (1 ≤ 3 ∧ 3 ≤ 99) ∧
    feedAll resetParser (digitKeys 3)
      = ⟨.ModeNormal, .InputReady, .ofNat 0, (3 : Int)⟩ :=
  ⟨⟨by decide, by decide⟩, c1_amended.1 3 (by decide) (by decide)⟩

end Vimrace
